import Mathlib

/-!
Verification of the cycax-blender-worker placement and artifact-sync logic.

The definitions below are a shallow embedding of
`src/cycax_blender_worker/assembler.py` (class `AssemblyBlender`:
`_swap_xy_`, `_swap_xz_`, `_swap_yz_`, `_move`, `build`) and
`src/cycax_blender_worker/client.py` (`check_extension`,
`CycaxClient.upload_artifacts`, `CycaxClient.download_artifacts`).
Python strings are lists of characters; numeric coordinates are integers;
the HTTP client and the filesystem are explicit oracles, and the network
and timing side effects are recorded as explicit event traces.
-/

namespace Cycax

/-- Python string, modelled as its list of characters. -/
abbrev PyStr := List Char

/-- A 3-component coordinate vector, the Python lists `[x, y, z]` used for
`rotation`, `rotmax` and `position` in `AssemblyBlender`. -/
structure V3 where
  x : Int
  y : Int
  z : Int
deriving DecidableEq, Repr

/-- One iteration of the while-loop body of `AssemblyBlender._swap_xy_`:
`rotation[0], rotation[1] = rotation[1], max_x - rotation[0]` and
`rotmax[0], rotmax[1] = rotmax[1], rotmax[0]`. -/
def swapXYStep (rotation rotmax : V3) : V3 × V3 :=
  (⟨rotation.y, rotmax.x - rotation.x, rotation.z⟩, ⟨rotmax.y, rotmax.x, rotmax.z⟩)

/-- One iteration of the while-loop body of `AssemblyBlender._swap_xz_`:
`rotation[0], rotation[2] = max_z - rotation[2], rotation[0]` and
`rotmax[0], rotmax[2] = rotmax[2], rotmax[0]`. -/
def swapXZStep (rotation rotmax : V3) : V3 × V3 :=
  (⟨rotmax.z - rotation.z, rotation.y, rotation.x⟩, ⟨rotmax.z, rotmax.y, rotmax.x⟩)

/-- One iteration of the while-loop body of `AssemblyBlender._swap_yz_`:
`rotation[1], rotation[2] = rotation[2], max_y - rotation[1]` and
`rotmax[2], rotmax[1] = rotmax[1], rotmax[2]`. -/
def swapYZStep (rotation rotmax : V3) : V3 × V3 :=
  (⟨rotation.x, rotation.z, rotmax.y - rotation.y⟩, ⟨rotmax.x, rotmax.z, rotmax.y⟩)

/-- `AssemblyBlender._swap_xy_`: the while loop runs `rot` times
(`while rot != 0: ... rot = rot - 1`; the callers always pass a
non-negative integer count). -/
def swap_xy : V3 → Nat → V3 → V3 × V3
  | rotation, 0, rotmax => (rotation, rotmax)
  | rotation, n + 1, rotmax =>
    swap_xy (swapXYStep rotation rotmax).1 n (swapXYStep rotation rotmax).2

/-- `AssemblyBlender._swap_xz_` (while loop run `rot` times). -/
def swap_xz : V3 → Nat → V3 → V3 × V3
  | rotation, 0, rotmax => (rotation, rotmax)
  | rotation, n + 1, rotmax =>
    swap_xz (swapXZStep rotation rotmax).1 n (swapXZStep rotation rotmax).2

/-- `AssemblyBlender._swap_yz_` (while loop run `rot` times). -/
def swap_yz : V3 → Nat → V3 → V3 × V3
  | rotation, 0, rotmax => (rotation, rotmax)
  | rotation, n + 1, rotmax =>
    swap_yz (swapYZStep rotation rotmax).1 n (swapYZStep rotation rotmax).2

/-- The three recognised rotation axes (`item["axis"]` values `"x"`, `"y"`,
`"z"`; also the `orient_axis` of the scene-engine rotate instruction). -/
inductive Axis3
  | x
  | y
  | z
deriving DecidableEq, Repr

/-- One entry of a `PartOperation`'s `rotate` sequence: the dict
`{"axis": ...}`; the axis value is an arbitrary Python string. -/
structure AxisRotation where
  axis : PyStr
deriving DecidableEq, Repr

/-- Result of `AssemblyBlender._move`: the scene-engine rotate instructions
issued (one per recognised axis, in order), the final value of the local
`rotation` accumulator (the accumulated offset), the final `rotmax`
(extents), and the translate instruction
`(rotation[0] + position[0], rotation[1] + position[1], rotation[2] + position[2])`. -/
structure MoveResult where
  ops : List Axis3
  rotation : V3
  rotmax : V3
  translation : V3
deriving DecidableEq, Repr

/-- The for-loop of `AssemblyBlender._move` over the `rotate` sequence:
axis `"x"` applies `_swap_yz_(rotation, 3, rotmax)`, axis `"y"` applies
`_swap_xz_(rotation, 3, rotmax)`, axis `"z"` applies
`_swap_xy_(rotation, 3, rotmax)`; any other axis value is ignored.
Returns the rotate instructions issued and the final `rotation`, `rotmax`. -/
def moveLoop : V3 → V3 → List AxisRotation → List Axis3 × V3 × V3
  | rotation, rotmax, [] => ([], rotation, rotmax)
  | rotation, rotmax, item :: rest =>
    if item.axis = "x".toList then
      let s := swap_yz rotation 3 rotmax
      let r := moveLoop s.1 s.2 rest
      (Axis3.x :: r.1, r.2)
    else if item.axis = "y".toList then
      let s := swap_xz rotation 3 rotmax
      let r := moveLoop s.1 s.2 rest
      (Axis3.y :: r.1, r.2)
    else if item.axis = "z".toList then
      let s := swap_xy rotation 3 rotmax
      let r := moveLoop s.1 s.2 rest
      (Axis3.z :: r.1, r.2)
    else
      moveLoop rotation rotmax rest

/-- `AssemblyBlender._move(rotmax, position, rotate)`: starts from
`rotation = [0, 0, 0]`, processes the rotate entries, then issues the
translate instruction `rotation + position` componentwise. -/
def move (rotmax position : V3) (rotate : List AxisRotation) : MoveResult :=
  let r := moveLoop ⟨0, 0, 0⟩ rotmax rotate
  { ops := r.1
    rotation := r.2.1
    rotmax := r.2.2
    translation := ⟨r.2.1.x + position.x, r.2.1.y + position.y, r.2.1.z + position.z⟩ }

/-- The single 90° sub-step of the bookkeeping for one axis: the loop body
of the `_swap_*_` helper that `_move` uses for that axis. -/
def stepOf : Axis3 → V3 × V3 → V3 × V3
  | Axis3.x, s => swapYZStep s.1 s.2
  | Axis3.y, s => swapXZStep s.1 s.2
  | Axis3.z, s => swapXYStep s.1 s.2

/-- The forward bookkeeping for one axis entry, as `_move` performs it:
the matching `_swap_*_` helper applied with count 3. -/
def fwdAxis : Axis3 → V3 × V3 → V3 × V3
  | Axis3.x, s => swap_yz s.1 3 s.2
  | Axis3.y, s => swap_xz s.1 3 s.2
  | Axis3.z, s => swap_xy s.1 3 s.2

/-- The complementary reverse entry for one axis: the matching `_swap_*_`
helper applied with count 1 (the single 90° sub-step that undoes the three
forward sub-steps, since four sub-steps are the identity). -/
def revAxis : Axis3 → V3 × V3 → V3 × V3
  | Axis3.x, s => swap_yz s.1 1 s.2
  | Axis3.y, s => swap_xz s.1 1 s.2
  | Axis3.z, s => swap_xy s.1 1 s.2

/-- Apply the forward (three-sub-step) bookkeeping for each axis of a
rotation sequence in order, on an (offset, extents) state. -/
def applyFwd (s : V3 × V3) (rs : List Axis3) : V3 × V3 :=
  rs.foldl (fun t a => fwdAxis a t) s

/-- Apply the single-sub-step reverse bookkeeping for each axis of a
sequence in order, on an (offset, extents) state. -/
def applyRev (s : V3 × V3) (rs : List Axis3) : V3 × V3 :=
  rs.foldl (fun t a => revAxis a t) s

theorem fwdAxis_eq_three_steps (a : Axis3) (s : V3 × V3) :
    fwdAxis a s = stepOf a (stepOf a (stepOf a s)) := by
  cases a <;> rfl

theorem revAxis_eq_step (a : Axis3) (s : V3 × V3) :
    revAxis a s = stepOf a s := by
  cases a <;> rfl

theorem stepOf_fwdAxis (a : Axis3) (s : V3 × V3) :
    stepOf a (fwdAxis a s) = s := by
  obtain ⟨⟨rx, ry, rz⟩, ⟨mx, my, mz⟩⟩ := s
  cases a <;>
    simp [fwdAxis_eq_three_steps, stepOf, swapXYStep, swapXZStep, swapYZStep,
      V3.mk.injEq, Prod.ext_iff]

theorem applyFwd_cons (a : Axis3) (rs : List Axis3) (s : V3 × V3) :
    applyFwd s (a :: rs) = applyFwd (fwdAxis a s) rs := rfl

theorem applyRev_append (s : V3 × V3) (l1 l2 : List Axis3) :
    applyRev s (l1 ++ l2) = applyRev (applyRev s l1) l2 := by
  simp [applyRev, List.foldl_append]

theorem applyRev_reverse_applyFwd (rs : List Axis3) (s : V3 × V3) :
    applyRev (applyFwd s rs) rs.reverse = s := by
  induction rs generalizing s with
  | nil => rfl
  | cons a rs ih =>
    rw [applyFwd_cons, List.reverse_cons, applyRev_append, ih]
    show revAxis a (fwdAxis a s) = s
    rw [revAxis_eq_step, stepOf_fwdAxis]

/-- C1: for the single-part scenario `position = (10,0,0)`, one Z-axis
rotation, `rotmax = (5,5,5)`, `_move` applies the Z swap rule (`_swap_xy_`)
three times from offset `(0,0,0)`, yielding accumulated offset `(5,0,0)`,
translate instruction `(15,0,0)`, extents unchanged `(5,5,5)`, and exactly
one rotate instruction, for axis Z. -/
theorem c1_single_part_scenario :
    move ⟨5, 5, 5⟩ ⟨10, 0, 0⟩ [⟨"z".toList⟩] =
      { ops := [Axis3.z]
        rotation := ⟨5, 0, 0⟩
        rotmax := ⟨5, 5, 5⟩
        translation := ⟨15, 0, 0⟩ } := by
  decide

/-- C2: for every rotation sequence, applying the per-axis bookkeeping
(three sub-steps per entry, as `_move` does) and then the reversed sequence
with each entry as the complementary single sub-step returns the
accumulated offset to `(0,0,0)` and the extents to the original `rotmax`. -/
theorem c2_rotation_roundtrip (rs : List Axis3) (rotmax : V3) :
    applyRev (applyFwd (⟨0, 0, 0⟩, rotmax) rs) rs.reverse = (⟨0, 0, 0⟩, rotmax) :=
  applyRev_reverse_applyFwd rs (⟨0, 0, 0⟩, rotmax)

/-- C3: for an empty rotation sequence `_move` leaves the accumulated
offset at `(0,0,0)`, the extents equal to the input `rotmax`, issues no
rotate instruction, and the translate instruction equals the input
position componentwise. -/
theorem c3_empty_rotation (rotmax position : V3) :
    move rotmax position [] =
      { ops := []
        rotation := ⟨0, 0, 0⟩
        rotmax := rotmax
        translation := position } := by
  obtain ⟨px, py, pz⟩ := position
  simp [move, moveLoop]

/-- The module constant `PART_NO_TEMPLATE = "Pn--pN"` of `client.py`. -/
def PART_NO_TEMPLATE : PyStr := "Pn--pN".toList

/-- `client.check_extension(extensions_only, aid)`: returns true when no
filter is given (`None` and an empty sequence are both falsy in Python),
otherwise true iff `aid` ends with some entry of the filter. -/
def check_extension (extensions_only : Option (List PyStr)) (aid : PyStr) : Bool :=
  match extensions_only with
  | none => true
  | some exts =>
    if exts.isEmpty then true
    else exts.any fun ext => ext.isSuffixOf aid

/-- Fuelled pass of Python `s.replace(pat, rep)` over a character list for
a non-empty pattern `pat`: each leftmost non-overlapping occurrence of
`pat` is replaced by `rep`.  The fuel only bounds the recursion depth; the
wrapper `pyReplace` instantiates it with the length of the string, which
is always sufficient. -/
def pyReplaceFuel (pat rep : PyStr) : Nat → PyStr → PyStr
  | 0, s => s
  | _ + 1, [] => []
  | fuel + 1, c :: rest =>
    if pat.isPrefixOf (c :: rest) then
      rep ++ pyReplaceFuel pat rep fuel (List.drop (pat.length - 1) rest)
    else
      c :: pyReplaceFuel pat rep fuel rest

/-- Python `s.replace(pat, rep)` for a non-empty pattern: replaces every
left-to-right non-overlapping occurrence of `pat` in `s` by `rep`. -/
def pyReplace (pat rep s : PyStr) : PyStr := pyReplaceFuel pat rep s.length s

/-- The local filename computed for a downloaded artifact:
`artifact_id.replace(PART_NO_TEMPLATE, part_no)`. -/
def artifact_filename (artifact_id part_no : PyStr) : PyStr :=
  pyReplace PART_NO_TEMPLATE part_no artifact_id

/-- Whether `pat` occurs as a contiguous substring (at any position). -/
def occursIn (pat : PyStr) : PyStr → Bool
  | [] => pat.isPrefixOf []
  | c :: rest => pat.isPrefixOf (c :: rest) || occursIn pat rest

/-- Concatenation of `n` copies of a string. -/
def repeatL : Nat → PyStr → PyStr
  | 0, _ => []
  | n + 1, pat => pat ++ repeatL n pat

theorem pyReplaceFuel_congr (pat rep : PyStr) :
    ∀ (f1 f2 : Nat) (s : PyStr), s.length ≤ f1 → s.length ≤ f2 →
      pyReplaceFuel pat rep f1 s = pyReplaceFuel pat rep f2 s := by
  intro f1
  induction f1 with
  | zero =>
    intro f2 s h1 _
    have hs : s = [] := by
      cases s with
      | nil => rfl
      | cons c rest => simp at h1
    subst hs
    cases f2 <;> rfl
  | succ f ih =>
    intro f2 s h1 h2
    cases s with
    | nil => cases f2 <;> rfl
    | cons c rest =>
      cases f2 with
      | zero => simp at h2
      | succ g =>
        simp only [pyReplaceFuel]
        split
        · have hd : (List.drop (pat.length - 1) rest).length ≤ rest.length := by
            simp [List.length_drop]
          have hrest : rest.length ≤ f := by
            simpa using h1
          have hrest2 : rest.length ≤ g := by
            simpa using h2
          rw [ih g (List.drop (pat.length - 1) rest) (le_trans hd hrest)
            (le_trans hd hrest2)]
        · have hrest : rest.length ≤ f := by
            simpa using h1
          have hrest2 : rest.length ≤ g := by
            simpa using h2
          rw [ih g rest hrest hrest2]

theorem isPrefixOf_append_self (l t : List Char) : l.isPrefixOf (l ++ t) = true := by
  induction l with
  | nil => simp
  | cons c l ih => simp [List.isPrefixOf, ih]

theorem pyReplaceFuel_cons_append (p : Char) (ps rep t : PyStr) (f : Nat) :
    pyReplaceFuel (p :: ps) rep (f + 1) ((p :: ps) ++ t) =
      rep ++ pyReplaceFuel (p :: ps) rep f t := by
  have hpre : (p :: ps).isPrefixOf (p :: (ps ++ t)) = true :=
    isPrefixOf_append_self (p :: ps) t
  show pyReplaceFuel (p :: ps) rep (f + 1) (p :: (ps ++ t)) = _
  simp only [pyReplaceFuel]
  rw [if_pos hpre]
  congr 1
  congr 1
  exact List.drop_left' (by simp)

theorem pyReplaceFuel_no_occurrence (pat rep : PyStr) :
    ∀ (s : PyStr) (f : Nat), occursIn pat s = false → s.length ≤ f →
      pyReplaceFuel pat rep f s = s := by
  intro s
  induction s with
  | nil =>
    intro f _ _
    cases f <;> rfl
  | cons c rest ih =>
    intro f h hf
    cases f with
    | zero => simp at hf
    | succ g =>
      simp only [occursIn, Bool.or_eq_false_iff] at h
      simp only [pyReplaceFuel]
      rw [if_neg (by simp [h.1])]
      rw [ih g h.2 (by simpa using hf)]

theorem pyReplace_repeat (p : Char) (ps rep suffixPart : PyStr) (n : Nat)
    (h : occursIn (p :: ps) suffixPart = false) :
    pyReplace (p :: ps) rep (repeatL n (p :: ps) ++ suffixPart) =
      repeatL n rep ++ suffixPart := by
  induction n with
  | zero =>
    show pyReplace (p :: ps) rep ([] ++ suffixPart) = [] ++ suffixPart
    simp only [List.nil_append]
    exact pyReplaceFuel_no_occurrence (p :: ps) rep suffixPart suffixPart.length h le_rfl
  | succ n ih =>
    have hlhs : repeatL (n + 1) (p :: ps) ++ suffixPart =
        (p :: ps) ++ (repeatL n (p :: ps) ++ suffixPart) := by
      simp [repeatL, List.append_assoc]
    have hrhs : repeatL (n + 1) rep ++ suffixPart =
        rep ++ (repeatL n rep ++ suffixPart) := by
      simp [repeatL, List.append_assoc]
    rw [hlhs, hrhs]
    unfold pyReplace
    have hlen : ((p :: ps) ++ (repeatL n (p :: ps) ++ suffixPart)).length =
        (ps.length + (repeatL n (p :: ps) ++ suffixPart).length) + 1 := by
      simp [List.length_append]
    rw [hlen, pyReplaceFuel_cons_append]
    have hfuel : pyReplaceFuel (p :: ps) rep
        (ps.length + (repeatL n (p :: ps) ++ suffixPart).length)
        (repeatL n (p :: ps) ++ suffixPart) =
        pyReplaceFuel (p :: ps) rep (repeatL n (p :: ps) ++ suffixPart).length
        (repeatL n (p :: ps) ++ suffixPart) :=
      pyReplaceFuel_congr (p :: ps) rep _ _ _ (by omega) le_rfl
    rw [hfuel]
    exact congrArg (fun l => rep ++ l) ih

/-- Modelled from the words of the claim, for comparison only: replace
just the first (leftmost) occurrence of the pattern, leaving any later
occurrence untouched. -/
def replaceOnceSpec (pat rep : PyStr) : PyStr → PyStr
  | [] => []
  | c :: rest =>
    if pat.isPrefixOf (c :: rest) then rep ++ List.drop (pat.length - 1) rest
    else c :: replaceOnceSpec pat rep rest

/-- C8 counterexample: for an artifact id containing the part-number
template twice, the code substitutes both occurrences (Python
`str.replace` replaces every occurrence), so the computed filename differs
from the one obtained by substituting only one occurrence. -/
theorem c8_counterexample :
    artifact_filename ("Pn--pNPn--pN.stl".toList) ("P1".toList) = "P1P1.stl".toList ∧
    replaceOnceSpec PART_NO_TEMPLATE ("P1".toList) ("Pn--pNPn--pN.stl".toList) =
      "P1Pn--pN.stl".toList ∧
    artifact_filename ("Pn--pNPn--pN.stl".toList) ("P1".toList) ≠
      replaceOnceSpec PART_NO_TEMPLATE ("P1".toList) ("Pn--pNPn--pN.stl".toList) := by
  refine ⟨by decide, by decide, by decide⟩

/-- C8 amended: the download path substitutes every occurrence of the
part-number template in the artifact id (one `replace` call per download):
an id made of `n` consecutive copies of the template followed by a
template-free tail maps to `n` copies of the part number followed by that
tail. -/
theorem c8_amended_all_occurrences (n : Nat) (part_no tail : PyStr)
    (h : occursIn PART_NO_TEMPLATE tail = false) :
    artifact_filename (repeatL n PART_NO_TEMPLATE ++ tail) part_no =
      repeatL n part_no ++ tail := by
  exact pyReplace_repeat 'P' ("n--pN".toList) part_no tail n h

/-- Witness for the amended C8 at a concrete double-template id. -/
theorem c8_amended_witness :
    artifact_filename (repeatL 2 PART_NO_TEMPLATE ++ ".stl".toList) ("P1".toList) =
      repeatL 2 ("P1".toList) ++ ".stl".toList :=
  c8_amended_all_occurrences 2 ("P1".toList) (".stl".toList) (by decide)

/-- Metadata of one artifact in the listing returned by
`GET /jobs/{job_id}/artifacts`: the `"id"` and `"type"` fields as
`artifact_obj.get` reads them (an absent key gives `None`). -/
structure ArtifactObj where
  id : Option PyStr
  type : Option PyStr
deriving DecidableEq, Repr

/-- The local filesystem visible to `download_artifacts`: the contents of
the file at each path, `none` when the file does not exist. -/
def FileSys : Type := PyStr → Option PyStr

/-- Path join with `/` (Python's `part_path / name`). -/
def pathJoin (dir name : PyStr) : PyStr := dir ++ '/' :: name

/-- State threaded through the download loop: the filesystem, and the ids
of the artifacts for which a body `GET` was issued, in order. -/
structure DLState where
  fs : FileSys
  gets : List PyStr

/-- Loop body of `CycaxClient.download_artifacts` for one listed artifact:
skipped unless the id is present and non-empty (truthy), the type equals
`"artifact"` and the id passes `check_extension`; the local path
substitutes the part-number template into the id; the body is fetched
(`net` maps an artifact id to the body served by
`GET /jobs/{job_id}/artifacts/{artifact_id}`) and the file written unless
the file already exists and `overwrite` is false. -/
def download_step (net : PyStr → PyStr) (part_path part_no : PyStr)
    (extensions_only : Option (List PyStr)) (overwrite : Bool)
    (st : DLState) (a : ArtifactObj) : DLState :=
  match a.id with
  | none => st
  | some artifact_id =>
    if artifact_id ≠ [] ∧ a.type = some ("artifact".toList) ∧
        check_extension extensions_only artifact_id = true then
      let artifact_path := pathJoin part_path (artifact_filename artifact_id part_no)
      if st.fs artifact_path = none ∨ overwrite = true then
        { fs := fun p => if p = artifact_path then some (net artifact_id) else st.fs p
          gets := st.gets ++ [artifact_id] }
      else st
    else st

/-- `CycaxClient.download_artifacts`: `listing` stands for the decoded
body of `GET /jobs/{job_id}/artifacts`; the destination directory is
`base_path/job_id` when `job_path` is true, else `base_path/part_no`; the
loop processes the listed artifacts in order.  The Python function body
has no return statement, so the call evaluates to `None`, modelled as
`none : Option Nat`. -/
def download_artifacts (net : PyStr → PyStr) (listing : List ArtifactObj)
    (job_id part_no base_path : PyStr) (extensions_only : Option (List PyStr))
    (overwrite job_path : Bool) (fs : FileSys) : DLState × Option Nat :=
  let part_path := if job_path then pathJoin base_path job_id else pathJoin base_path part_no
  (listing.foldl (download_step net part_path part_no extensions_only overwrite)
    ⟨fs, []⟩, none)

/-- C4: for an artifact passing the id/type/extension filters, the loop
body skips the body `GET` and leaves the filesystem unchanged when the
computed local file exists and `overwrite` is false; otherwise it fetches
the body and writes it at the computed path, overwriting any existing
content. -/
theorem c4_download_skip_or_fetch (net : PyStr → PyStr)
    (part_path part_no artifact_id : PyStr) (extensions_only : Option (List PyStr))
    (overwrite : Bool) (st : DLState) (a : ArtifactObj)
    (hid : a.id = some artifact_id) (hne : artifact_id ≠ [])
    (hty : a.type = some ("artifact".toList))
    (hext : check_extension extensions_only artifact_id = true) :
    (st.fs (pathJoin part_path (artifact_filename artifact_id part_no)) ≠ none →
      overwrite = false →
      download_step net part_path part_no extensions_only overwrite st a = st) ∧
    (st.fs (pathJoin part_path (artifact_filename artifact_id part_no)) = none ∨
        overwrite = true →
      (download_step net part_path part_no extensions_only overwrite st a).gets =
          st.gets ++ [artifact_id] ∧
        (download_step net part_path part_no extensions_only overwrite st a).fs
            (pathJoin part_path (artifact_filename artifact_id part_no)) =
          some (net artifact_id)) := by
  constructor
  · intro hexists hov
    simp [download_step, hid, hne, hty, hext, hov, hexists]
  · intro hfetch
    simp [download_step, hid, hne, hty, hext, hfetch]

/-- Witness for C4 at a concrete artifact with no pre-existing file. -/
theorem c4_witness :
    ((⟨fun _ => none, []⟩ : DLState).fs
        (pathJoin ("base".toList) (artifact_filename ("a.stl".toList) ("P1".toList))) = none ∨
      (true : Bool) = true) ∧
    (download_step (fun _ => "body".toList) ("base".toList) ("P1".toList) none true
        ⟨fun _ => none, []⟩ ⟨some ("a.stl".toList), some ("artifact".toList)⟩).gets =
      [] ++ ["a.stl".toList] := by
  refine ⟨Or.inl rfl, ?_⟩
  exact ((c4_download_skip_or_fetch (fun _ => "body".toList) ("base".toList) ("P1".toList)
    ("a.stl".toList) none true ⟨fun _ => none, []⟩
    ⟨some ("a.stl".toList), some ("artifact".toList)⟩ rfl (by decide) rfl rfl).2
    (Or.inl rfl)).1

/-- C5 counterexample: at a configuration where exactly one artifact body
is fetched, `download_artifacts` still evaluates to `None` rather than to
the number of artifacts fetched. -/
theorem c5_counterexample :
    ((download_artifacts (fun _ => []) [⟨some ("a.stl".toList), some ("artifact".toList)⟩]
        ("J1".toList) ("P1".toList) ("base".toList) none true true
        (fun _ => none)).1.gets.length = 1) ∧
    (download_artifacts (fun _ => []) [⟨some ("a.stl".toList), some ("artifact".toList)⟩]
        ("J1".toList) ("P1".toList) ("base".toList) none true true
        (fun _ => none)).2 ≠
      some ((download_artifacts (fun _ => []) [⟨some ("a.stl".toList), some ("artifact".toList)⟩]
        ("J1".toList) ("P1".toList) ("base".toList) none true true
        (fun _ => none)).1.gets.length) := by
  refine ⟨rfl, ?_⟩
  intro h
  exact Option.noConfusion h

/-- C5 amended: `download_artifacts` returns no count (the Python function
returns `None`); the artifact bodies actually fetched from the network are
recorded only in the request trace, and each fetched id belongs to a
listed artifact that passed the id/type/extension filters. -/
theorem c5_amended_returns_none (net : PyStr → PyStr) (listing : List ArtifactObj)
    (job_id part_no base_path : PyStr) (extensions_only : Option (List PyStr))
    (overwrite job_path : Bool) (fs : FileSys) :
    (download_artifacts net listing job_id part_no base_path extensions_only
        overwrite job_path fs).2 = none ∧
    ∀ aid ∈ (download_artifacts net listing job_id part_no base_path extensions_only
        overwrite job_path fs).1.gets,
      ∃ a ∈ listing, a.id = some aid ∧ aid ≠ [] ∧ a.type = some ("artifact".toList) ∧
        check_extension extensions_only aid = true := by
  constructor
  · rfl
  · intro aid hmem
    have key : ∀ (l : List ArtifactObj) (part_path : PyStr) (st : DLState),
        aid ∈ (l.foldl (download_step net part_path part_no extensions_only overwrite) st).gets →
        aid ∈ st.gets ∨
          ∃ a ∈ l, a.id = some aid ∧ aid ≠ [] ∧ a.type = some ("artifact".toList) ∧
            check_extension extensions_only aid = true := by
      intro l part_path
      induction l with
      | nil => intro st h; exact Or.inl h
      | cons a rest ih =>
        intro st h
        rcases ih (download_step net part_path part_no extensions_only overwrite st a) h with
          h1 | h2
        · rcases ha : a.id with _ | artifact_id
          · rw [show download_step net part_path part_no extensions_only overwrite st a = st by
              simp [download_step, ha]] at h1
            exact Or.inl h1
          · by_cases hcond : artifact_id ≠ [] ∧ a.type = some ("artifact".toList) ∧
              check_extension extensions_only artifact_id = true
            · by_cases hw : st.fs (pathJoin part_path
                  (artifact_filename artifact_id part_no)) = none ∨ overwrite = true
              · have hstep : (download_step net part_path part_no extensions_only overwrite
                    st a).gets = st.gets ++ [artifact_id] := by
                  simp [download_step, ha, hcond.1, hcond.2.1, hcond.2.2, hw]
                rw [hstep] at h1
                rcases List.mem_append.mp h1 with hin | hin
                · exact Or.inl hin
                · have haid : aid = artifact_id := by simpa using hin
                  subst haid
                  exact Or.inr ⟨a, List.mem_cons_self a rest, ha, hcond⟩
              · rw [show download_step net part_path part_no extensions_only overwrite st a = st by
                  simp only [download_step, ha]
                  rw [if_pos hcond, if_neg hw]] at h1
                exact Or.inl h1
            · rw [show download_step net part_path part_no extensions_only overwrite st a = st by
                simp only [download_step, ha]
                rw [if_neg hcond]] at h1
              exact Or.inl h1
        · rcases h2 with ⟨b, hb, hrest⟩
          exact Or.inr ⟨b, List.mem_cons_of_mem a hb, hrest⟩
    have := key listing
      (if job_path then pathJoin base_path job_id else pathJoin base_path part_no)
      ⟨fs, []⟩ hmem
    rcases this with h | h
    · simp at h
    · exact h

/-- Witness for the amended C5 at a concrete one-artifact listing. -/
theorem c5_amended_witness :
    (download_artifacts (fun _ => []) [⟨some ("a.stl".toList), some ("artifact".toList)⟩]
        ("J1".toList) ("P1".toList) ("base".toList) none true true
        (fun _ => none)).2 = none ∧
    ∃ a ∈ [(⟨some ("a.stl".toList), some ("artifact".toList)⟩ : ArtifactObj)],
      a.id = some ("a.stl".toList) ∧ ("a.stl".toList : PyStr) ≠ [] ∧
        a.type = some ("artifact".toList) ∧ check_extension none ("a.stl".toList) = true :=
  ⟨(c5_amended_returns_none (fun _ => []) [⟨some ("a.stl".toList), some ("artifact".toList)⟩]
      ("J1".toList) ("P1".toList) ("base".toList) none true true (fun _ => none)).1,
    (c5_amended_returns_none (fun _ => []) [⟨some ("a.stl".toList), some ("artifact".toList)⟩]
      ("J1".toList) ("P1".toList) ("base".toList) none true true (fun _ => none)).2
      ("a.stl".toList) (by decide)⟩

/-- Events observable during `upload_artifacts`: an `upload_file` attempt
for a file (recording whether it succeeded), a `time.sleep`, and a
`set_task_state` call. -/
inductive UpEvent
  | attempt (filepath : PyStr) (success : Bool)
  | sleepSecs (secs : Nat)
  | setTask (job_id name state : PyStr)
deriving DecidableEq, Repr

/-- The retry while-loop of `upload_artifacts` for one file (`retry`
starts at 3; `i` numbers the attempts for this file from 0; `ok i` tells
whether `upload_file` raises on attempt `i`): on success `count` is
incremented and the loop breaks, on failure `retry` is decremented and
`time.sleep(3)` runs.  Returns the events, the final value of `retry`,
and the count increment. -/
def file_retry_loop (ok : Nat → Bool) (filepath : PyStr) : Nat → Nat → List UpEvent × Nat × Nat
  | 0, _ => ([], 0, 0)
  | retry + 1, i =>
    if ok i then ([UpEvent.attempt filepath true], retry + 1, 1)
    else
      let r := file_retry_loop ok filepath retry (i + 1)
      (UpEvent.attempt filepath false :: UpEvent.sleepSecs 3 :: r.1, r.2)

/-- The for-loop of `upload_artifacts` over the files of the resolved
directory (`files` stands for `part_path.iterdir()` in iteration order):
files failing `check_extension` are skipped; each kept file runs the retry
loop with `retry = 3`; when the retry loop exhausted `retry`
(`if retry == 0: break`) the for-loop stops and no later file is
considered.  Returns the events and the final `count`. -/
def upload_loop (ok : PyStr → Nat → Bool) (extensions_only : Option (List PyStr)) :
    List PyStr → List UpEvent × Nat
  | [] => ([], 0)
  | filepath :: rest =>
    if check_extension extensions_only filepath then
      let r := file_retry_loop (ok filepath) filepath 3 0
      if r.2.1 = 0 then (r.1, r.2.2)
      else
        let rr := upload_loop ok extensions_only rest
        (r.1 ++ rr.1, r.2.2 + rr.2)
    else upload_loop ok extensions_only rest

/-- `CycaxClient.upload_artifacts`: runs the upload loop over the files of
the resolved directory and then calls
`set_task_state(job_id, name, "COMPLETED")` iff `count > 1`. -/
def upload_artifacts (ok : PyStr → Nat → Bool) (name job_id : PyStr)
    (extensions_only : Option (List PyStr)) (files : List PyStr) : List UpEvent × Nat :=
  let r := upload_loop ok extensions_only files
  (r.1 ++ (if r.2 > 1 then [UpEvent.setTask job_id name ("COMPLETED".toList)] else []), r.2)

/-- The number of upload attempts for a given file in an event trace. -/
def attemptsFor (filepath : PyStr) : List UpEvent → Nat
  | [] => 0
  | UpEvent.attempt f _ :: rest =>
    (if f = filepath then 1 else 0) + attemptsFor filepath rest
  | UpEvent.sleepSecs _ :: rest => attemptsFor filepath rest
  | UpEvent.setTask _ _ _ :: rest => attemptsFor filepath rest

/-- The number of successful upload attempts in an event trace. -/
def successCount : List UpEvent → Nat
  | [] => 0
  | UpEvent.attempt _ success :: rest =>
    (if success then 1 else 0) + successCount rest
  | UpEvent.sleepSecs _ :: rest => successCount rest
  | UpEvent.setTask _ _ _ :: rest => successCount rest

/-- The event trace of `r` consecutive failed attempts for one file, each
followed by the fixed `time.sleep(3)`. -/
def failTrace (filepath : PyStr) : Nat → List UpEvent
  | 0 => []
  | r + 1 => UpEvent.attempt filepath false :: UpEvent.sleepSecs 3 :: failTrace filepath r

theorem file_retry_loop_all_fail (ok : Nat → Bool) (filepath : PyStr) :
    ∀ (r i : Nat), (∀ j, j < r → ok (i + j) = false) →
      file_retry_loop ok filepath r i = (failTrace filepath r, 0, 0) := by
  intro r
  induction r with
  | zero => intro i _; rfl
  | succ r ih =>
    intro i h
    have h0 : ok i = false := by simpa using h 0 (Nat.succ_pos r)
    have hrest : ∀ j, j < r → ok (i + 1 + j) = false := by
      intro j hj
      have := h (j + 1) (by omega)
      simpa [Nat.add_assoc, Nat.add_comm 1 j] using this
    simp only [file_retry_loop, h0, Bool.false_eq_true, if_false]
    rw [ih (i + 1) hrest]
    rfl

theorem attemptsFor_file_retry_loop (ok : Nat → Bool) (f2 filepath : PyStr) :
    ∀ (r i : Nat), attemptsFor f2 (file_retry_loop ok filepath r i).1 ≤ r := by
  intro r
  induction r with
  | zero => intro i; simp [file_retry_loop, attemptsFor]
  | succ r ih =>
    intro i
    by_cases hok : ok i = true
    · simp only [file_retry_loop, hok, if_true]
      simp only [attemptsFor]
      split <;> omega
    · have hok' : ok i = false := by simpa using hok
      simp only [file_retry_loop, hok', Bool.false_eq_true, if_false]
      have hih := ih (i + 1)
      simp only [attemptsFor]
      split <;> omega

/-- C6: a file passing the extension filter whose three upload attempts
all fail produces exactly the trace of three failed attempts, each
followed by `time.sleep(3)`, and the loop stops there: no event of any
later file appears; in general the retry loop makes at most `retry`
attempts for a file (so at most 3 as called). -/
theorem c6_retry_abort (ok : PyStr → Nat → Bool) (extensions_only : Option (List PyStr))
    (filepath : PyStr) (rest : List PyStr)
    (hext : check_extension extensions_only filepath = true)
    (h0 : ok filepath 0 = false) (h1 : ok filepath 1 = false)
    (h2 : ok filepath 2 = false) :
    (upload_loop ok extensions_only (filepath :: rest)).1 =
      [UpEvent.attempt filepath false, UpEvent.sleepSecs 3,
        UpEvent.attempt filepath false, UpEvent.sleepSecs 3,
        UpEvent.attempt filepath false, UpEvent.sleepSecs 3] ∧
    ∀ (ok2 : Nat → Bool) (f2 g2 : PyStr) (r i : Nat),
      attemptsFor f2 (file_retry_loop ok2 g2 r i).1 ≤ r := by
  constructor
  · have hall : ∀ j, j < 3 → ok filepath (0 + j) = false := by
      intro j hj
      interval_cases j
      · simpa using h0
      · simpa using h1
      · simpa using h2
    have hfrl := file_retry_loop_all_fail (ok filepath) filepath 3 0 hall
    simp only [upload_loop, hext, if_true, hfrl]
    rfl
  · intro ok2 f2 g2 r i
    exact attemptsFor_file_retry_loop ok2 f2 g2 r i

/-- Witness for C6: a single always-failing file under no filter. -/
theorem c6_witness :
    (upload_loop (fun _ _ => false) none ["a".toList]).1 =
      [UpEvent.attempt ("a".toList) false, UpEvent.sleepSecs 3,
        UpEvent.attempt ("a".toList) false, UpEvent.sleepSecs 3,
        UpEvent.attempt ("a".toList) false, UpEvent.sleepSecs 3] :=
  (c6_retry_abort (fun _ _ => false) none ("a".toList) [] rfl rfl rfl rfl).1

theorem successCount_cons (e : UpEvent) (l : List UpEvent) :
    successCount (e :: l) =
      (match e with
        | UpEvent.attempt _ success => if success then 1 else 0
        | _ => 0) + successCount l := by
  cases e <;> simp [successCount]

theorem successCount_append (l1 l2 : List UpEvent) :
    successCount (l1 ++ l2) = successCount l1 + successCount l2 := by
  induction l1 with
  | nil => simp [successCount]
  | cons e rest ih =>
    rw [List.cons_append, successCount_cons, successCount_cons, ih]
    omega

theorem file_retry_loop_count_eq (ok : Nat → Bool) (filepath : PyStr) :
    ∀ (r i : Nat), (file_retry_loop ok filepath r i).2.2 =
      successCount (file_retry_loop ok filepath r i).1 := by
  intro r
  induction r with
  | zero => intro i; rfl
  | succ r ih =>
    intro i
    by_cases hok : ok i = true
    · simp [file_retry_loop, hok, successCount]
    · have hok' : ok i = false := by simpa using hok
      simp [file_retry_loop, hok', successCount, ih (i + 1)]

theorem setTask_not_mem_file_retry_loop (ok : Nat → Bool) (filepath j n s : PyStr) :
    ∀ (r i : Nat), UpEvent.setTask j n s ∉ (file_retry_loop ok filepath r i).1 := by
  intro r
  induction r with
  | zero => intro i; simp [file_retry_loop]
  | succ r ih =>
    intro i
    by_cases hok : ok i = true
    · simp [file_retry_loop, hok]
    · have hok' : ok i = false := by simpa using hok
      simp [file_retry_loop, hok', ih (i + 1)]

theorem upload_loop_count_eq (ok : PyStr → Nat → Bool) (exts : Option (List PyStr)) :
    ∀ files : List PyStr,
      (upload_loop ok exts files).2 = successCount (upload_loop ok exts files).1 := by
  intro files
  induction files with
  | nil => rfl
  | cons f rest ih =>
    by_cases hext : check_extension exts f = true
    · simp only [upload_loop, hext, if_true]
      by_cases hr : (file_retry_loop (ok f) f 3 0).2.1 = 0
      · simp [hr, file_retry_loop_count_eq]
      · simp [hr, successCount_append, file_retry_loop_count_eq, ih]
    · have hext' : check_extension exts f = false := by simpa using hext
      simp [upload_loop, hext', ih]

theorem setTask_not_mem_upload_loop (ok : PyStr → Nat → Bool) (exts : Option (List PyStr))
    (j n s : PyStr) :
    ∀ files, UpEvent.setTask j n s ∉ (upload_loop ok exts files).1 := by
  intro files
  induction files with
  | nil => simp [upload_loop]
  | cons f rest ih =>
    by_cases hext : check_extension exts f = true
    · simp only [upload_loop, hext, if_true]
      by_cases hr : (file_retry_loop (ok f) f 3 0).2.1 = 0
      · simp [hr, setTask_not_mem_file_retry_loop]
      · simp [hr, List.mem_append, setTask_not_mem_file_retry_loop, ih]
    · have hext' : check_extension exts f = false := by simpa using hext
      simp [upload_loop, hext', ih]

/-- C7: `upload_artifacts` only ever posts the task state
`(job_id, name, "COMPLETED")`, and it does so iff strictly more than one
upload in this invocation succeeded; for 0 or 1 successes no
`set_task_state` call happens. -/
theorem c7_completed_iff (ok : PyStr → Nat → Bool) (name job_id : PyStr)
    (extensions_only : Option (List PyStr)) (files : List PyStr) :
    (∀ j n s,
      UpEvent.setTask j n s ∈ (upload_artifacts ok name job_id extensions_only files).1 →
        j = job_id ∧ n = name ∧ s = "COMPLETED".toList) ∧
    (UpEvent.setTask job_id name ("COMPLETED".toList) ∈
        (upload_artifacts ok name job_id extensions_only files).1 ↔
      1 < successCount (upload_artifacts ok name job_id extensions_only files).1) := by
  have hL := upload_loop_count_eq ok extensions_only files
  have htail : successCount
      (if (upload_loop ok extensions_only files).2 > 1 then
        [UpEvent.setTask job_id name ("COMPLETED".toList)] else []) = 0 := by
    by_cases hc : (upload_loop ok extensions_only files).2 > 1 <;> simp [hc, successCount]
  constructor
  · intro j n s hmem
    simp only [upload_artifacts] at hmem
    rcases List.mem_append.mp hmem with h | h
    · exact absurd h (setTask_not_mem_upload_loop ok extensions_only j n s files)
    · by_cases hc : (upload_loop ok extensions_only files).2 > 1
      · simp only [hc, if_true, List.mem_singleton, UpEvent.setTask.injEq] at h
        exact h
      · simp [hc] at h
  · constructor
    · intro hmem
      simp only [upload_artifacts] at hmem ⊢
      rcases List.mem_append.mp hmem with h | h
      · exact absurd h
          (setTask_not_mem_upload_loop ok extensions_only job_id name ("COMPLETED".toList) files)
      · by_cases hc : (upload_loop ok extensions_only files).2 > 1
        · rw [successCount_append, htail]
          rw [hL] at hc
          omega
        · simp [hc] at h
    · intro hgt
      simp only [upload_artifacts] at hgt ⊢
      rw [successCount_append, htail] at hgt
      have hc : (upload_loop ok extensions_only files).2 > 1 := by
        rw [hL]; omega
      apply List.mem_append.mpr
      right
      simp [hc]

/-- Witness for C7: two always-succeeding files lead to a COMPLETED post. -/
theorem c7_witness :
    ("J".toList : PyStr) = "J".toList ∧ ("blender".toList : PyStr) = "blender".toList ∧
      ("COMPLETED".toList : PyStr) = "COMPLETED".toList :=
  (c7_completed_iff (fun _ _ => true) ("blender".toList) ("J".toList) none
    ["a".toList, "b".toList]).1 ("J".toList) ("blender".toList) ("COMPLETED".toList)
    (by decide)

theorem singleton_isPrefixOf_iff (c : Char) (l : List Char) :
    ([c].isPrefixOf l) = true ↔ l.head? = some c := by
  cases l with
  | nil => simp [List.isPrefixOf]
  | cons b bs =>
    simp only [List.isPrefixOf, List.isPrefixOf_nil_left, Bool.and_true, beq_iff_eq,
      List.head?_cons, Option.some.injEq]
    exact eq_comm

theorem singleton_isSuffixOf_iff (c : Char) (l : List Char) :
    ([c].isSuffixOf l) = true ↔ l.getLast? = some c := by
  show ([c].reverse.isPrefixOf l.reverse) = true ↔ _
  rw [List.reverse_singleton, singleton_isPrefixOf_iff, List.head?_reverse]

/-- The effective extension filter of the upload started by
`AssemblyBlender.build`: the call passes the plain string `"blender"` as
`extensions_only`, and `check_extension` iterates a Python string
character by character, each iteration yielding a one-character string. -/
def blender_filter : Option (List PyStr) := some ("blender".toList.map fun c => [c])

/-- C9: under the filter that `build` effectively passes, a filename
passes `check_extension` iff its last character is one of the characters
of `"blender"`; in particular both the saved `.blend` scene file and the
downloaded `.stl` part files pass, and an upload over a directory holding
both uploads both. -/
theorem c9_blender_filter (aid : PyStr) :
    (check_extension blender_filter aid = true ↔
      ∃ c, aid.getLast? = some c ∧ c ∈ "blender".toList) ∧
    check_extension blender_filter ("P1.stl".toList) = true ∧
    check_extension blender_filter ("box.blend".toList) = true ∧
    (upload_loop (fun _ _ => true) blender_filter
        ["box.blend".toList, "P1.stl".toList]).1 =
      [UpEvent.attempt ("box.blend".toList) true, UpEvent.attempt ("P1.stl".toList) true] := by
  refine ⟨?_, by decide, by decide, by decide⟩
  have hce : check_extension blender_filter aid =
      (['b', 'l', 'e', 'n', 'd', 'e', 'r'].any fun c => [c].isSuffixOf aid) := rfl
  have hchars : "blender".toList = ['b', 'l', 'e', 'n', 'd', 'e', 'r'] := rfl
  rw [hce, List.any_eq_true, hchars]
  constructor
  · rintro ⟨c, hc, hsuf⟩
    exact ⟨c, (singleton_isSuffixOf_iff c aid).mp hsuf, hc⟩
  · rintro ⟨c, hlast, hc⟩
    exact ⟨c, hc, (singleton_isSuffixOf_iff c aid).mpr hlast⟩

/-- The multiset of the three components of an extents vector. -/
def extentsMultiset (m : V3) : Multiset Int := {m.x, m.y, m.z}

/-- Componentwise non-negativity of an extents vector. -/
def nonnegV3 (m : V3) : Prop := 0 ≤ m.x ∧ 0 ≤ m.y ∧ 0 ≤ m.z

theorem stepOf_extents_perm (a : Axis3) (s : V3 × V3) :
    extentsMultiset (stepOf a s).2 = extentsMultiset s.2 := by
  obtain ⟨⟨rx, ry, rz⟩, ⟨mx, my, mz⟩⟩ := s
  cases a <;>
    simp only [stepOf, swapXYStep, swapXZStep, swapYZStep, extentsMultiset,
      Multiset.insert_eq_cons]
  · exact congrArg _ (Multiset.cons_swap _ _ _)
  · calc (mz ::ₘ my ::ₘ {mx} : Multiset Int)
        = my ::ₘ mz ::ₘ {mx} := Multiset.cons_swap _ _ _
      _ = my ::ₘ mx ::ₘ {mz} := congrArg _ (Multiset.cons_swap _ _ _)
      _ = mx ::ₘ my ::ₘ {mz} := Multiset.cons_swap _ _ _
  · exact Multiset.cons_swap _ _ _

theorem stepOf_nonneg (a : Axis3) (s : V3 × V3) (h : nonnegV3 s.2) :
    nonnegV3 (stepOf a s).2 := by
  obtain ⟨⟨rx, ry, rz⟩, ⟨mx, my, mz⟩⟩ := s
  cases a <;>
    simp only [stepOf, swapXYStep, swapXZStep, swapYZStep, nonnegV3] at h ⊢ <;> tauto

theorem fwdAxis_nonneg (a : Axis3) (s : V3 × V3) (h : nonnegV3 s.2) :
    nonnegV3 (fwdAxis a s).2 := by
  rw [fwdAxis_eq_three_steps]
  exact stepOf_nonneg _ _ (stepOf_nonneg _ _ (stepOf_nonneg _ _ h))

theorem applyFwd_nonneg (rs : List Axis3) (s : V3 × V3) (h : nonnegV3 s.2) :
    nonnegV3 (applyFwd s rs).2 := by
  induction rs generalizing s with
  | nil => exact h
  | cons a rs ih => exact ih _ (fwdAxis_nonneg a s h)

/-- C10: each single-sub-step of the per-axis bookkeeping only permutes
the components of the extents vector, so extents stay componentwise
non-negative along any rotation sequence whenever the initial `rotmax`
is componentwise non-negative. -/
theorem c10_extents_permuted_nonneg :
    (∀ (a : Axis3) (s : V3 × V3),
      extentsMultiset (stepOf a s).2 = extentsMultiset s.2) ∧
    ∀ (rs : List Axis3) (offset rotmax : V3), nonnegV3 rotmax →
      nonnegV3 (applyFwd (offset, rotmax) rs).2 :=
  ⟨stepOf_extents_perm, fun rs offset rotmax h => applyFwd_nonneg rs (offset, rotmax) h⟩

/-- Witness for C10 on a concrete sequence and extents. -/
theorem c10_witness :
    nonnegV3 (applyFwd (⟨0, 0, 0⟩, ⟨5, 5, 5⟩) [Axis3.z, Axis3.x]).2 :=
  c10_extents_permuted_nonneg.2 [Axis3.z, Axis3.x] ⟨0, 0, 0⟩ ⟨5, 5, 5⟩
    ⟨by decide, by decide, by decide⟩

end Cycax
